import Mathlib

/-!
Verification development for the Geometry Dash level-ID extraction pipeline
(`src/utils/regexPatterns.js`, `src/services/gdbrowserService.js`,
`src/services/levelIdExtractor.js`).

The JavaScript source is shallowly embedded: pure text functions become Lean
functions on `List Char` / `String`, and the orchestrator becomes a program
in a small monad `M` that threads the trace of external calls and models a
thrown JS exception as `Except.error ()`.  External collaborators (YouTube
metadata fetch, OpenAI extraction, GDBrowser lookup and search) are oracle
fields of an `Env` record; a `try/catch` in the source becomes `absorbOpt`.
-/

set_option autoImplicit false

/-! ## JavaScript character classes

`\d`, `\w`, `\s` and the explicit character class `[:\s#=]` of the regexes in
`src/utils/regexPatterns.js`, with JS (ECMAScript, non-unicode-flag)
semantics.  `\s` is the full ECMAScript WhiteSpace/LineTerminator set. -/

def isDigitCh (c : Char) : Bool := 48 ≤ c.toNat && c.toNat ≤ 57

def isAsciiLetter (c : Char) : Bool :=
  (65 ≤ c.toNat && c.toNat ≤ 90) || (97 ≤ c.toNat && c.toNat ≤ 122)

def isWordCh (c : Char) : Bool := isAsciiLetter c || isDigitCh c || c.toNat = 95

def isJsSpace (c : Char) : Bool :=
  c.toNat = 32 || c.toNat = 9 || c.toNat = 10 || c.toNat = 13 ||
  c.toNat = 11 || c.toNat = 12 || c.toNat = 160 || c.toNat = 5760 ||
  (8192 ≤ c.toNat && c.toNat ≤ 8202) || c.toNat = 8232 || c.toNat = 8233 ||
  c.toNat = 8239 || c.toNat = 8287 || c.toNat = 12288 || c.toNat = 65279

/-- The character class `[:\s#=]` from the labeled-id pattern. -/
def sepClassCh (c : Char) : Bool :=
  c.toNat = 58 || isJsSpace c || c.toNat = 35 || c.toNat = 61

/-- `\b` seen from one side: the adjacent character (if any) is a non-word
character.  Used for a boundary right before or right after a digit run. -/
def nonWordAt : Option Char → Bool
  | none => true
  | some c => !isWordCh c

/-- ASCII lower-casing, as applied by a case-insensitive JS regex to the
letters appearing in these patterns. -/
def lowerCh (c : Char) : Char :=
  if 65 ≤ c.toNat ∧ c.toNat ≤ 90 then Char.ofNat (c.toNat + 32) else c

/-- Case-insensitive literal match at the front: `pat` is given lower-case. -/
def ciHasAtFront (pat : List Char) (s : List Char) : Bool :=
  (s.take pat.length).map lowerCh = pat

/-! ## The five regex patterns

Each matcher attempts its pattern anchored at the current position, exactly as
the backtracking JS engine would, and returns the captured digit group
together with the total number of characters consumed by the whole match.

`/(?:level\s*)?id[:\s#=]*(\d{6,9})\b/gi` -/

/-- `\d{6,9}\b` at the current position: a greedy 6-9 digit group whose
backtracking can never succeed unless the whole maximal digit run has length
6..9 and is followed by a non-word character (or the end of the text). -/
def digitRun69 (s : List Char) : Option (List Char × Nat) :=
  let run := s.takeWhile isDigitCh
  let r := run.length
  if 6 ≤ r ∧ r ≤ 9 ∧ nonWordAt (s.drop r).head? = true then some (run, r) else none

/-- The suffix `[:\s#=]*(\d{6,9})\b` of the labeled pattern; `pre` counts the
characters already consumed by the `(?:level\s*)?id` label. -/
def tryTailP1 (pre : Nat) (s : List Char) : Option (List Char × Nat) :=
  let sepRun := (s.takeWhile sepClassCh).length
  match digitRun69 (s.drop sepRun) with
  | some (digits, r) => some (digits, pre + sepRun + r)
  | none => none

/-- `(?:level\s*)?id[:\s#=]*(\d{6,9})\b`, case-insensitive, anchored.  The
optional `level\s*` group is tried greedily first; if the text starts with
`level` the bare-`id` alternative can never apply (it would need the same
position to start with `id`). -/
def tryP1 (s : List Char) : Option (List Char × Nat) :=
  if ciHasAtFront "level".data s then
    let s1 := s.drop 5
    let w := (s1.takeWhile isJsSpace).length
    if ciHasAtFront "id".data (s1.drop w) then tryTailP1 (5 + w + 2) ((s1.drop w).drop 2)
    else none
  else if ciHasAtFront "id".data s then tryTailP1 2 (s.drop 2)
  else none

def tryP1v (_ : Option Char) (s : List Char) : Option (List Char × Nat) := tryP1 s

/-- `\((\d{6,9})\)`, anchored. -/
def tryP2 (_ : Option Char) : List Char → Option (List Char × Nat)
  | '(' :: s1 =>
    let run := s1.takeWhile isDigitCh
    let r := run.length
    if 6 ≤ r ∧ r ≤ 9 ∧ (s1.drop r).head? = some ')' then some (run, r + 2) else none
  | _ => none

/-- `#(\d{6,9})\b`, anchored. -/
def tryP3 (_ : Option Char) : List Char → Option (List Char × Nat)
  | '#' :: s1 =>
    match digitRun69 s1 with
    | some (digits, r) => some (digits, r + 1)
    | none => none
  | _ => none

/-- `\b(\d{lo,hi})\b`, anchored; `prev` is the character right before the
current position (for the leading `\b`). -/
def tryBare (lo hi : Nat) (prev : Option Char) (s : List Char) : Option (List Char × Nat) :=
  if nonWordAt prev = true then
    let run := s.takeWhile isDigitCh
    let r := run.length
    if lo ≤ r ∧ r ≤ hi ∧ nonWordAt (s.drop r).head? = true then some (run, r) else none
  else none

def tryP4 (prev : Option Char) (s : List Char) : Option (List Char × Nat) :=
  tryBare 8 9 prev s

def tryP5 (prev : Option Char) (s : List Char) : Option (List Char × Nat) :=
  tryBare 6 7 prev s

/-! ## The `regex.exec` scan loop

`while ((match = regex.exec(text)) !== null)` with the `g` flag: attempt the
pattern at each position from left to right; on a match, record the capture
and resume right after the consumed characters; otherwise advance one
character.  `fuel` is the remaining text length (every step consumes at least
one character, so `text.length` fuel suffices); `prev` is the character just
before the current position, for `\b`. -/
def scanFuel (tryM : Option Char → List Char → Option (List Char × Nat)) :
    Nat → Option Char → List Char → List (List Char)
  | 0, _, _ => []
  | _ + 1, _, [] => []
  | fuel + 1, prev, c :: rest =>
    match tryM prev (c :: rest) with
    | some (cap, k) =>
      let k' := max k 1
      cap :: scanFuel tryM fuel ((c :: rest)[k' - 1]?) ((c :: rest).drop k')
    | none => scanFuel tryM fuel (some c) rest

def scanAll (tryM : Option Char → List Char → Option (List Char × Nat))
    (text : List Char) : List (List Char) :=
  scanFuel tryM text.length none text

def matchesP1 (text : String) : List String := (scanAll tryP1v text.data).map String.mk
def matchesP2 (text : String) : List String := (scanAll tryP2 text.data).map String.mk
def matchesP3 (text : String) : List String := (scanAll tryP3 text.data).map String.mk
def matchesP4 (text : String) : List String := (scanAll tryP4 text.data).map String.mk
def matchesP5 (text : String) : List String := (scanAll tryP5 text.data).map String.mk

/-- All matches of the four strict patterns, in pattern-priority order. -/
def strictStream (text : String) : List String :=
  matchesP1 text ++ matchesP2 text ++ matchesP3 text ++ matchesP4 text

/-! ## `extractPotentialLevelIds`

The source pushes each match onto `ids` guarded by a `seen` set; since an id
is added to `seen` exactly when it is pushed, `seen` always holds exactly the
elements of `ids`, so the pair is modelled by the list alone. -/

def pushNew (acc : List String) (ms : List String) : List String :=
  ms.foldl (fun acc id => if id ∈ acc then acc else acc ++ [id]) acc

/-- First-occurrence-order deduplication (`[...new Set(l)]`). -/
def dedupFirst (l : List String) : List String := pushNew [] l

def extractPotentialLevelIds (text : String) : List String :=
  let ids := pushNew (pushNew (pushNew (pushNew [] (matchesP1 text))
    (matchesP2 text)) (matchesP3 text)) (matchesP4 text)
  if ids.isEmpty then pushNew [] (matchesP5 text) else ids

/-- The labeled mention shape of spec property §8: the literal text
`ID: ` followed by the digits `n`, then the rest of the text. -/
def mentionShape (n post : List Char) : List Char :=
  'I' :: 'D' :: ':' :: ' ' :: (n ++ post)

/-- The claim's hypothesis for C8: `text` contains a labeled mention
`ID: n` where `n` is a 6-9 digit number delimited on the right. -/
def hasLabeledMention (text : String) (n : String) : Prop :=
  6 ≤ n.data.length ∧ n.data.length ≤ 9 ∧ n.data.all isDigitCh = true ∧
  ∃ pre post, text.data = pre ++ mentionShape n.data post ∧ nonWordAt post.head? = true

/-! ## `gdbrowserService.js`: name variations

`generateNameVariations`: push the original name, then the qualifier-stripped
form when it differs, then the trimmed sides of every separator split, and
finally deduplicate (first occurrence wins) and drop empty strings. -/

/-- JS `String.prototype.trim` on the character list. -/
def jsTrim (cs : List Char) : List Char :=
  ((cs.dropWhile isJsSpace).reverse.dropWhile isJsSpace).reverse

/-- The alternatives of `/^(Beating|100%|All Coins?|Completed?|Verified?|)\s+/i`,
in backtracking order (an optional trailing letter expands into the longer
form first; the final alternative is the empty string, so the regex also
strips bare leading whitespace).  All lower-case; matching is case-insensitive. -/
def qualifierAlts : List String :=
  ["beating", "100%", "all coins", "all coin", "completed", "complete",
   "verified", "verifie", ""]

def stripQualifierAux : List String → List Char → Option (List Char)
  | [], _ => none
  | alt :: rest, cs =>
    if ciHasAtFront alt.data cs then
      let s1 := cs.drop alt.data.length
      let w := (s1.takeWhile isJsSpace).length
      if 1 ≤ w then some (s1.drop w) else stripQualifierAux rest cs
    else stripQualifierAux rest cs

/-- First `replace` of `generateNameVariations` (anchored at the start, first
matching alternative wins, no match leaves the string unchanged). -/
def stripQualifier (cs : List Char) : List Char :=
  (stripQualifierAux qualifierAlts cs).getD cs

/-- The alternatives of `/\s+(Geometry Dash|GD|Level|Demon)$/i`, lower-case. -/
def trailingAlts : List String := ["geometry dash", "gd", "level", "demon"]

/-- Case-insensitive equality of a whole tail with one alternative. -/
def tailIsAlt (tail : List Char) : Bool :=
  trailingAlts.any fun alt => tail.map lowerCh = alt.data

/-- Does `\s+(Geometry Dash|GD|Level|Demon)$` match starting here?  `\s+`
takes the maximal whitespace run (the alternatives start with letters, so
backtracking into the run cannot help), and the rest must be exactly one
alternative followed by the end of the string. -/
def trailMatchHere : List Char → Bool
  | [] => false
  | c :: rest =>
    isJsSpace c && tailIsAlt ((c :: rest).drop ((c :: rest).takeWhile isJsSpace).length)

/-- Index of the leftmost position where the trailing pattern matches. -/
def findTrailIdx : List Char → Option Nat
  | [] => none
  | c :: rest =>
    if trailMatchHere (c :: rest) then some 0
    else (findTrailIdx rest).map (fun i => i + 1)

/-- Second `replace` of `generateNameVariations`. -/
def stripTrailing (cs : List Char) : List Char :=
  match findTrailIdx cs with
  | some i => cs.take i
  | none => cs

/-- The `cleanedName` of `generateNameVariations`: strip the leading
qualifier, strip the trailing category word, then trim. -/
def cleanedNameOf (name : String) : String :=
  String.mk (jsTrim (stripTrailing (stripQualifier name.data)))

/-- JS `String.prototype.split` on a non-empty separator: split at each
leftmost non-overlapping occurrence.  `fuel` bounds the recursion by the
remaining length; `acc` holds the current chunk reversed. -/
def splitFuel (sep : List Char) : Nat → List Char → List Char → List (List Char)
  | _, acc, [] => [acc.reverse]
  | 0, acc, s => [acc.reverse ++ s]
  | fuel + 1, acc, c :: rest =>
    if sep.isPrefixOf (c :: rest) then
      acc.reverse :: splitFuel sep fuel [] ((c :: rest).drop sep.length)
    else splitFuel sep fuel (c :: acc) rest

def splitOnJs (s sep : String) : List String :=
  (splitFuel sep.data s.data.length [] s.data).map String.mk

/-- JS `String.prototype.includes` for a non-empty pattern. -/
def hasSubstr (pat : List Char) : List Char → Bool
  | [] => pat.isPrefixOf ([] : List Char)
  | c :: rest => pat.isPrefixOf (c :: rest) || hasSubstr pat rest

/-- The separator tokens tried by `generateNameVariations`, in order. -/
def separators : List String :=
  [" X ", " x ", " & ", " and ", " vs ", " VS ", " - ", "|"]

/-- The trimmed sides of splitting `name` on `sep`. -/
def splitTrimmed (name sep : String) : List String :=
  (splitOnJs name sep).map fun p => String.mk (jsTrim p.data)

/-- The `for (const sep of separators)` loop: append the trimmed split parts
for every separator that occurs in the name. -/
def sepFold (name : String) (seps : List String) (acc : List String) : List String :=
  seps.foldl (fun acc sep =>
    if hasSubstr sep.data name.data = true then acc ++ splitTrimmed name sep else acc) acc

def generateNameVariations (levelName : String) : List String :=
  let cleanedName := cleanedNameOf levelName
  let withClean :=
    if cleanedName ≠ levelName then [levelName, cleanedName] else [levelName]
  let withParts := sepFold levelName separators withClean
  (dedupFirst withParts).filter fun v => v.length > 0

/-! ## `gdbrowserService.js`: `getLevelInfoWithRetry`

The underlying `getLevelInfo` call is an oracle from the attempt index to a
thrown error (`Except.error ()`), a clean not-found (`Except.ok none`) or a
record.  The embedding returns the final value together with the number of
attempts made and the list of back-off delays slept, in order.  `remaining`
plays the role of `retries - i` in `for (let i = 0; i < retries; i++)`, so
`remaining = 0` after an error is the `i === retries - 1` exit. -/

structure LevelInfo where
  id : String
  name : String
deriving DecidableEq

def retryLoopF (oracle : Nat → Except Unit (Option LevelInfo)) :
    Nat → Nat → Option LevelInfo × Nat × List Nat
  | 0, _ => (none, 0, [])
  | remaining + 1, i =>
    match oracle i with
    | Except.ok v => (v, 1, [])
    | Except.error _ =>
      if remaining = 0 then (none, 1, [])
      else
        let r := retryLoopF oracle remaining (i + 1)
        (r.1, r.2.1 + 1, (1000 * 2 ^ i) :: r.2.2)

def getLevelInfoWithRetry (oracle : Nat → Except Unit (Option LevelInfo))
    (retries : Nat) : Option LevelInfo × Nat × List Nat :=
  retryLoopF oracle retries 0

/-- The source's default for the `retries` parameter. -/
def defaultRetries : Nat := 3

/-! ## Data model of the orchestrator (`levelIdExtractor.js`) -/

inductive Stage
  | regex
  | ai
  | name_search
deriving DecidableEq

inductive Confidence
  | high
  | medium
  | low
deriving DecidableEq

inductive ErrorKind
  | VIDEO_NOT_FOUND
  | NO_LEVEL_ID_FOUND
deriving DecidableEq

structure VideoMetadata where
  title : String
  description : String
  channelTitle : String
  tags : List String
deriving DecidableEq

/-- The schema-validated result of `extractLevelIdWithAI`, as consumed by the
orchestrator (`levelId`, `levelNames`, `confidence`, `reasoning`). -/
structure AiResult where
  levelId : Option String
  levelNames : List String
  confidence : Confidence
  reasoning : String
deriving DecidableEq

/-- The loosely-typed result object built by `extractAndValidateLevelId`; every
field the source ever sets is a field here, absent fields are `none`. -/
structure ExtractionResult where
  success : Bool
  levelId : Option String
  levelInfo : Option LevelInfo
  stage : Option Stage
  aiConfidence : Option Confidence
  aiReasoning : Option String
  searchedNames : Option (List String)
  metadata : Option VideoMetadata
  error : Option ErrorKind
deriving DecidableEq

def failureResult (e : ErrorKind) (m : Option VideoMetadata) : ExtractionResult :=
  { success := false, levelId := none, levelInfo := none, stage := none,
    aiConfidence := none, aiReasoning := none, searchedNames := none,
    metadata := m, error := some e }

def regexSuccessResult (id : String) (info : LevelInfo) (m : VideoMetadata) :
    ExtractionResult :=
  { success := true, levelId := some id, levelInfo := some info, stage := some Stage.regex,
    aiConfidence := none, aiReasoning := none, searchedNames := none,
    metadata := some m, error := none }

def aiSuccessResult (lid : String) (info : LevelInfo) (a : AiResult) (m : VideoMetadata) :
    ExtractionResult :=
  { success := true, levelId := some lid, levelInfo := some info, stage := some Stage.ai,
    aiConfidence := some a.confidence, aiReasoning := some a.reasoning, searchedNames := none,
    metadata := some m, error := none }

def nameSearchResult (info : LevelInfo) (a : AiResult) (m : VideoMetadata) :
    ExtractionResult :=
  { success := true, levelId := some info.id, levelInfo := some info,
    stage := some Stage.name_search, aiConfidence := some a.confidence,
    aiReasoning := some a.reasoning, searchedNames := some a.levelNames,
    metadata := some m, error := none }

/-- A result is exactly one of Success, `Failure{VIDEO_NOT_FOUND}` (the spec's
SOURCE_NOT_FOUND) or `Failure{NO_LEVEL_ID_FOUND}` (the spec's
IDENTIFIER_NOT_FOUND), with the fields each variant requires. -/
def WFResult (r : ExtractionResult) : Prop :=
  (r.success = true ∧ r.error = none ∧
    ∃ id info st m, r.levelId = some id ∧ r.levelInfo = some info ∧
      r.stage = some st ∧ r.metadata = some m)
  ∨ (r.success = false ∧ r.error = some ErrorKind.VIDEO_NOT_FOUND ∧
      r.levelId = none ∧ r.levelInfo = none ∧ r.stage = none ∧ r.metadata = none)
  ∨ (r.success = false ∧ r.error = some ErrorKind.NO_LEVEL_ID_FOUND ∧
      r.levelId = none ∧ r.levelInfo = none ∧ r.stage = none ∧ ∃ m, r.metadata = some m)

/-! ## The trace monad

`M α` threads the list of external calls made so far and either returns a
value or propagates a thrown exception.  Side effects made before a throw
persist, exactly as in JS. -/

inductive Call
  | fetchMeta
  | lookup (id : String)
  | aiExtract
  | search (nm : String)
deriving DecidableEq

def M (α : Type) : Type := List Call → List Call × Except Unit α

def mPure {α : Type} (a : α) : M α := fun t => (t, Except.ok a)

def mBind {α β : Type} (x : M α) (f : α → M β) : M β := fun t =>
  match x t with
  | (t1, Except.ok a) => f a t1
  | (t1, Except.error e) => (t1, Except.error e)

instance : Monad M where
  pure := mPure
  bind := mBind

/-- `try { x } catch { ... }` around a single external call: the thrown error
is absorbed into `none`, while the trace of the attempted call persists. -/
def absorbOpt {α : Type} (x : M α) : M (Option α) := fun t =>
  match x t with
  | (t1, Except.ok a) => (t1, Except.ok (some a))
  | (t1, Except.error _) => (t1, Except.ok none)

def emitCall (c : Call) : M Unit := fun t => (t ++ [c], Except.ok ())

def liftRes {α : Type} (e : Except Unit α) : M α := fun t => (t, e)

/-- The external collaborators, as deterministic oracles.  `lookup` is
`getLevelInfoWithRetry` seen from the orchestrator (one result per id),
`search` is `searchLevelByName`, `ai` is `extractLevelIdWithAI`, `fetchMeta`
is `getVideoMetadata` (`Except.ok none` = a clean absent). -/
structure Env where
  fetchMeta : Except Unit (Option VideoMetadata)
  lookup : String → Except Unit (Option LevelInfo)
  ai : Except Unit AiResult
  search : String → Except Unit (Option LevelInfo)

def fetchMetaM (env : Env) : M (Option VideoMetadata) := do
  emitCall Call.fetchMeta
  liftRes env.fetchMeta

def lookupM (env : Env) (id : String) : M (Option LevelInfo) := do
  emitCall (Call.lookup id)
  liftRes (env.lookup id)

def aiM (env : Env) : M AiResult := do
  emitCall Call.aiExtract
  liftRes env.ai

def searchM (env : Env) (nm : String) : M (Option LevelInfo) := do
  emitCall (Call.search nm)
  liftRes (env.search nm)

/-! ## `searchLevelByNameWithFallback` -/

/-- One of the two identical search loops: try each name in order inside its
own `try/catch`; a truthy result returns immediately, an error or a clean
absent moves on. -/
def searchNamesLoop (env : Env) : List String → M (Option LevelInfo)
  | [] => pure none
  | nm :: rest => do
    let r ← absorbOpt (searchM env nm)
    match r with
    | some (some info) => pure (some info)
    | _ => searchNamesLoop env rest

/-- `[...new Set(allVariations)].filter(v => !levelNames.includes(v))`. -/
def uniqueVariations (levelNames : List String) : List String :=
  (dedupFirst ((levelNames.map generateNameVariations).flatten)).filter
    fun v => v ∉ levelNames

def searchLevelByNameWithFallback (env : Env) (levelNames : List String) :
    M (Option LevelInfo) := do
  let r1 ← searchNamesLoop env levelNames
  match r1 with
  | some info => pure (some info)
  | none => searchNamesLoop env (uniqueVariations levelNames)

/-! ## `extractAndValidateLevelId` -/

def combinedText (m : VideoMetadata) : String :=
  m.title ++ " " ++ m.description ++ " " ++ String.intercalate " " m.tags

/-- Stage 1: for each candidate in order, validate inside a `try/catch`; a
truthy record returns the regex-stage success, an error or an absent record
moves to the next candidate. -/
def stage1 (env : Env) (m : VideoMetadata) : List String → M (Option ExtractionResult)
  | [] => pure none
  | id :: rest => do
    let r ← absorbOpt (lookupM env id)
    match r with
    | some (some info) => pure (some (regexSuccessResult id info m))
    | _ => stage1 env m rest

/-- Stage 2 after the AI call already succeeded with `a` (the source's single
`try` block is split at the point where `aiResult` has been assigned: an
error thrown by the inner lookup is absorbed by the same `catch`, but leaves
`aiResult` set).  `aiResult.levelId &&` is JS-truthy, so the empty string
does not qualify. -/
def stage2Go (env : Env) (m : VideoMetadata) (rids : List String) (a : AiResult) :
    M (Option ExtractionResult) :=
  match a.levelId with
  | none => pure none
  | some lid =>
    if lid ≠ "" ∧ a.confidence ≠ Confidence.low ∧ lid ∉ rids then do
      let r ← absorbOpt (lookupM env lid)
      match r with
      | some (some info) => pure (some (aiSuccessResult lid info a m))
      | _ => pure none
    else pure none

/-- Stage 3: entered only with an AI result whose `levelNames` is non-empty
and whose confidence is not low; the whole fallback search runs inside a
`try/catch`. -/
def stage3Go (env : Env) (m : VideoMetadata) (a : AiResult) :
    M (Option ExtractionResult) :=
  if a.levelNames ≠ [] ∧ a.confidence ≠ Confidence.low then do
    let r ← absorbOpt (searchLevelByNameWithFallback env a.levelNames)
    match r with
    | some (some info) => pure (some (nameSearchResult info a m))
    | _ => pure none
  else pure none

/-- The orchestrator.  A thrown metadata fetch and a clean absent both produce
the same `VIDEO_NOT_FOUND` failure record in the source, so they share the
catch-all branch here. -/
def extractAndValidateLevelId (env : Env) : M ExtractionResult := do
  let mo ← absorbOpt (fetchMetaM env)
  match mo with
  | some (some m) =>
    let rids := extractPotentialLevelIds (combinedText m)
    let s1 ← stage1 env m rids
    match s1 with
    | some r => pure r
    | none =>
      let aOpt ← absorbOpt (aiM env)
      let s2 ← (match aOpt with
        | some a => stage2Go env m rids a
        | none => pure none)
      match s2 with
      | some r => pure r
      | none =>
        let s3 ← (match aOpt with
          | some a => stage3Go env m a
          | none => pure none)
        match s3 with
        | some r => pure r
        | none => pure (failureResult ErrorKind.NO_LEVEL_ID_FOUND (some m))
  | _ => pure (failureResult ErrorKind.VIDEO_NOT_FOUND none)

/-! ## Pure characterization of a run

`runResult`/`runTrace` compute the result and the call trace of
`extractAndValidateLevelId` directly; the master lemma `run_eq` below proves
they agree with the monadic program on every environment. -/

/-- The value an absorbed single call produces (`error` ↦ `none`). -/
def eoOpt {α : Type} : Except Unit α → Option α
  | Except.ok a => some a
  | Except.error _ => none

/-- The candidates stage 1 actually submits: every candidate in order up to
and including the first hit. -/
def lookTried (lookup : String → Except Unit (Option LevelInfo)) :
    List String → List String
  | [] => []
  | id :: rest =>
    match lookup id with
    | Except.ok (some _) => [id]
    | _ => id :: lookTried lookup rest

/-- The first candidate the lookup oracle validates, with its record. -/
def firstLookupHit (lookup : String → Except Unit (Option LevelInfo)) :
    List String → Option (String × LevelInfo)
  | [] => none
  | id :: rest =>
    match lookup id with
    | Except.ok (some info) => some (id, info)
    | _ => firstLookupHit lookup rest

/-- The names a search loop actually submits, up to and including the hit. -/
def triedUntilHit (search : String → Except Unit (Option LevelInfo)) :
    List String → List String
  | [] => []
  | nm :: rest =>
    match search nm with
    | Except.ok (some _) => [nm]
    | _ => nm :: triedUntilHit search rest

/-- The record found by the first name the search oracle resolves. -/
def firstSearchHit (search : String → Except Unit (Option LevelInfo)) :
    List String → Option LevelInfo
  | [] => none
  | nm :: rest =>
    match search nm with
    | Except.ok (some info) => some info
    | _ => firstSearchHit search rest

/-- The identifier stage 2 submits, if any: a truthy `levelId`, confidence not
low, and not already tried in the regex stage. -/
def semCond (a : AiResult) (rids : List String) : Option String :=
  match a.levelId with
  | none => none
  | some lid =>
    if lid ≠ "" ∧ a.confidence ≠ Confidence.low ∧ lid ∉ rids then some lid else none

/-- The complete order of names the fallback search tries: the provided names
first, then the deduplicated variations not equal to a provided name. -/
def searchOrder (levelNames : List String) : List String :=
  levelNames ++ uniqueVariations levelNames

def stage1ResOf (env : Env) (m : VideoMetadata) (rids : List String) :
    Option ExtractionResult :=
  (firstLookupHit env.lookup rids).map fun p => regexSuccessResult p.1 p.2 m

def stage2ResOf (env : Env) (m : VideoMetadata) (rids : List String) (a : AiResult) :
    Option ExtractionResult :=
  match semCond a rids with
  | some lid =>
    match env.lookup lid with
    | Except.ok (some info) => some (aiSuccessResult lid info a m)
    | _ => none
  | none => none

def stage3ResOf (env : Env) (m : VideoMetadata) (a : AiResult) :
    Option ExtractionResult :=
  if a.levelNames ≠ [] ∧ a.confidence ≠ Confidence.low then
    (firstSearchHit env.search (searchOrder a.levelNames)).map
      fun info => nameSearchResult info a m
  else none

def stage2TraceOf (a : AiResult) (rids : List String) : List Call :=
  match semCond a rids with
  | some lid => [Call.lookup lid]
  | none => []

def stage3TraceOf (env : Env) (a : AiResult) : List Call :=
  if a.levelNames ≠ [] ∧ a.confidence ≠ Confidence.low then
    (triedUntilHit env.search (searchOrder a.levelNames)).map Call.search
  else []

def runResult (env : Env) : ExtractionResult :=
  match eoOpt env.fetchMeta with
  | some (some m) =>
    let rids := extractPotentialLevelIds (combinedText m)
    match stage1ResOf env m rids with
    | some r => r
    | none =>
      match eoOpt env.ai with
      | some a =>
        (match stage2ResOf env m rids a with
         | some r => r
         | none =>
           match stage3ResOf env m a with
           | some r => r
           | none => failureResult ErrorKind.NO_LEVEL_ID_FOUND (some m))
      | none => failureResult ErrorKind.NO_LEVEL_ID_FOUND (some m)
  | _ => failureResult ErrorKind.VIDEO_NOT_FOUND none

def runTrace (env : Env) : List Call :=
  Call.fetchMeta ::
    match eoOpt env.fetchMeta with
    | some (some m) =>
      let rids := extractPotentialLevelIds (combinedText m)
      (lookTried env.lookup rids).map Call.lookup ++
        match stage1ResOf env m rids with
        | some _ => []
        | none =>
          Call.aiExtract ::
            match eoOpt env.ai with
            | some a =>
              stage2TraceOf a rids ++
                (match stage2ResOf env m rids a with
                 | some _ => []
                 | none => stage3TraceOf env a)
            | none => []
    | _ => []

/-- The identifiers submitted to the lookup oracle, in submission order. -/
def lookupSubmissions (tr : List Call) : List String :=
  tr.filterMap fun c =>
    match c with
    | Call.lookup id => some id
    | _ => none

/-- The names submitted to the search oracle, in submission order. -/
def searchSubmissions (tr : List Call) : List String :=
  tr.filterMap fun c =>
    match c with
    | Call.search nm => some nm
    | _ => none

/-! ## List lemmas for the dedup accumulator -/

theorem pushNew_append (acc a b : List String) :
    pushNew acc (a ++ b) = pushNew (pushNew acc a) b := by
  simp [pushNew, List.foldl_append]

theorem mem_pushNew (x : String) :
    ∀ (l acc : List String), x ∈ pushNew acc l ↔ x ∈ acc ∨ x ∈ l
  | [], acc => by simp [pushNew]
  | y :: l, acc => by
    have ih := mem_pushNew x l (if y ∈ acc then acc else acc ++ [y])
    simp only [pushNew, List.foldl_cons] at ih ⊢
    rw [ih]
    by_cases hy : y ∈ acc
    · simp only [hy, if_true, List.mem_cons]
      constructor
      · rintro (h | h)
        · exact Or.inl h
        · exact Or.inr (Or.inr h)
      · rintro (h | rfl | h)
        · exact Or.inl h
        · exact Or.inl hy
        · exact Or.inr h
    · simp only [hy, if_false, List.mem_append, List.mem_singleton, List.mem_cons]
      tauto
  termination_by l => l.length

theorem nodup_pushNew :
    ∀ (l acc : List String), acc.Nodup → (pushNew acc l).Nodup
  | [], acc, h => h
  | y :: l, acc, h => by
    simp only [pushNew, List.foldl_cons]
    apply nodup_pushNew l
    by_cases hy : y ∈ acc
    · simpa [hy] using h
    · simp only [hy, if_false]
      simp [List.nodup_append, h, hy]
  termination_by l => l.length

theorem head?_pushNew :
    ∀ (l acc : List String), acc ≠ [] → (pushNew acc l).head? = acc.head?
  | [], acc, _ => rfl
  | y :: l, acc, h => by
    simp only [pushNew, List.foldl_cons]
    by_cases hy : y ∈ acc
    · simp only [hy, if_true]
      exact head?_pushNew l acc h
    · simp only [hy, if_false]
      have hrec := head?_pushNew l (acc ++ [y]) (by simp)
      simp only [pushNew] at hrec
      rw [hrec]
      rcases acc with _ | ⟨a, acc⟩
      · exact absurd rfl h
      · rfl
  termination_by l => l.length

theorem pushNew_ne_nil (l acc : List String) (h : acc ≠ []) : pushNew acc l ≠ [] := by
  intro hcon
  have := head?_pushNew l acc h
  rw [hcon] at this
  rcases acc with _ | ⟨a, acc⟩
  · exact h rfl
  · simp at this

theorem dedupFirst_eq_nil (l : List String) : dedupFirst l = [] ↔ l = [] := by
  constructor
  · intro h
    rcases l with _ | ⟨x, l⟩
    · rfl
    · exfalso
      have hx : x ∈ dedupFirst (x :: l) := by
        rw [dedupFirst, mem_pushNew]
        simp
      rw [h] at hx
      simp at hx
  · rintro rfl
    rfl

/-! ## Claims about `extractPotentialLevelIds` -/

theorem extract_eq_dedup (text : String) :
    extractPotentialLevelIds text =
      if strictStream text = [] then dedupFirst (matchesP5 text)
      else dedupFirst (strictStream text) := by
  have hids : pushNew (pushNew (pushNew (pushNew [] (matchesP1 text))
      (matchesP2 text)) (matchesP3 text)) (matchesP4 text)
      = dedupFirst (strictStream text) := by
    simp [dedupFirst, strictStream, pushNew_append]
  rw [extractPotentialLevelIds]
  simp only [hids]
  by_cases h : strictStream text = []
  · rw [if_pos h]
    have hnil : dedupFirst (strictStream text) = [] := (dedupFirst_eq_nil _).mpr h
    rw [hnil]
    rfl
  · rw [if_neg h]
    have hne : dedupFirst (strictStream text) ≠ [] := by
      simpa [dedupFirst_eq_nil] using h
    rw [if_neg (by simp only [List.isEmpty_iff]; exact hne)]

/-- C2: the extractor returns the four strict patterns' matches union-combined
and deduplicated in first-occurrence order, and the loose 6-7 digit pattern is
applied if and only if that strict union is empty, in which case its
deduplicated matches are returned instead. -/
theorem claim_C2 (text : String) :
    (dedupFirst (strictStream text) = [] ↔ strictStream text = []) ∧
    extractPotentialLevelIds text =
      (if strictStream text = [] then dedupFirst (matchesP5 text)
       else dedupFirst (strictStream text)) :=
  ⟨dedupFirst_eq_nil _, extract_eq_dedup text⟩

theorem extract_nodup (text : String) : (extractPotentialLevelIds text).Nodup := by
  rw [extract_eq_dedup]
  by_cases h : strictStream text = [] <;>
    simp [h, dedupFirst, nodup_pushNew _ [] List.nodup_nil]

theorem extract_head (text : String) (w : String) (rest : List String)
    (h : matchesP1 text = w :: rest) :
    (extractPotentialLevelIds text).head? = some w := by
  have h1 : pushNew [] (matchesP1 text) = pushNew [w] rest := by
    rw [h]; rfl
  have hne : pushNew [] (matchesP1 text) ≠ [] := by
    rw [h1]; exact pushNew_ne_nil _ _ (by simp)
  have hh1 : (pushNew [] (matchesP1 text)).head? = some w := by
    rw [h1, head?_pushNew rest [w] (by simp)]; rfl
  have hh2 := head?_pushNew (matchesP2 text) _ hne
  have hne2 := pushNew_ne_nil (matchesP2 text) _ hne
  have hh3 := head?_pushNew (matchesP3 text) _ hne2
  have hne3 := pushNew_ne_nil (matchesP3 text) _ hne2
  have hh4 := head?_pushNew (matchesP4 text) _ hne3
  have hne4 := pushNew_ne_nil (matchesP4 text) _ hne3
  rw [extractPotentialLevelIds]
  have hcond : ¬ ((pushNew (pushNew (pushNew (pushNew [] (matchesP1 text))
      (matchesP2 text)) (matchesP3 text)) (matchesP4 text)).isEmpty = true) := by
    simp only [List.isEmpty_iff]
    exact hne4
  rw [if_neg hcond, hh4, hh3, hh2, hh1]

/-! ## The labeled pattern on a labeled mention -/

theorem digit_not_sepClass (c : Char) (h : isDigitCh c = true) : sepClassCh c = false := by
  simp only [isDigitCh, Bool.and_eq_true, decide_eq_true_eq] at h
  simp only [sepClassCh, isJsSpace, Bool.or_eq_false_iff, Bool.and_eq_false_iff,
    decide_eq_false_iff_not, decide_eq_true_eq]
  omega

theorem digit_isWord (c : Char) (h : isDigitCh c = true) : isWordCh c = true := by
  simp [isWordCh, h]

theorem takeWhile_append_all (p : Char → Bool) :
    ∀ (xs ys : List Char), (∀ x ∈ xs, p x = true) →
      (∀ y t, ys = y :: t → p y = false) →
      (xs ++ ys).takeWhile p = xs
  | [], [], _, _ => rfl
  | [], y :: t, _, hy => by
    simp only [List.nil_append]
    exact List.takeWhile_cons_of_neg (by simp [hy y t rfl])
  | x :: xs, ys, hx, hy => by
    have hpx : p x = true := hx x (by simp)
    simp only [List.cons_append]
    rw [List.takeWhile_cons_of_pos hpx,
      takeWhile_append_all p xs ys (fun z hz => hx z (by simp [hz])) hy]

theorem tryP1_mention (c0 : Char) (n' post : List Char)
    (h6 : 6 ≤ (c0 :: n').length) (h9 : (c0 :: n').length ≤ 9)
    (hd : ∀ c ∈ c0 :: n', isDigitCh c = true) (hp : nonWordAt post.head? = true) :
    tryP1 (mentionShape (c0 :: n') post) = some (c0 :: n', 2 + 2 + (c0 :: n').length) := by
  have hpost : ∀ y t, post = y :: t → isDigitCh y = false := by
    intro y t hyt
    subst hyt
    simp only [nonWordAt, List.head?, Bool.not_eq_eq_eq_not, Bool.not_true] at hp
    cases hdy : isDigitCh y
    · rfl
    · rw [digit_isWord y hdy] at hp
      simp at hp
  have hlevel : ciHasAtFront "level".data (mentionShape (c0 :: n') post) = false := rfl
  have hid : ciHasAtFront "id".data (mentionShape (c0 :: n') post) = true := rfl
  rw [tryP1, hlevel, hid]
  simp only [Bool.false_eq_true, if_false, if_true]
  have hdrop : (mentionShape (c0 :: n') post).drop 2 = ':' :: ' ' :: ((c0 :: n') ++ post) := rfl
  rw [hdrop, tryTailP1]
  have hsep : (':' :: ' ' :: ((c0 :: n') ++ post)).takeWhile sepClassCh = [':', ' '] := by
    rw [show (':' :: ' ' :: ((c0 :: n') ++ post)) = [':', ' '] ++ ((c0 :: n') ++ post) from rfl]
    apply takeWhile_append_all
    · intro x hx
      simp only [List.mem_cons, List.mem_singleton, List.not_mem_nil, or_false] at hx
      rcases hx with rfl | rfl
      · rfl
      · rfl
    · intro y t hyt
      rw [List.cons_append] at hyt
      injection hyt with hy ht
      subst hy
      exact digit_not_sepClass c0 (hd c0 (by simp))
  rw [hsep]
  have hdrop2 : (':' :: ' ' :: ((c0 :: n') ++ post)).drop (([':', ' '] : List Char).length) =
      (c0 :: n') ++ post := rfl
  rw [hdrop2, digitRun69]
  have hrun : ((c0 :: n') ++ post).takeWhile isDigitCh = c0 :: n' :=
    takeWhile_append_all isDigitCh (c0 :: n') post hd hpost
  have hafter : (((c0 :: n') ++ post).drop (((c0 :: n')).length)).head? = post.head? := by
    rw [List.drop_left]
  simp only [hrun, hafter, h6, h9, hp, and_self, if_true]
  rfl

/-- If the labeled pattern fails at every position strictly before `pre` and
matches at the start of `rest`, the scan's first capture is that match. -/
theorem scanFuel_first :
    ∀ (pre : List Char) (rest : List Char) (fuel : Nat) (prev : Option Char)
      (cap : List Char) (k : Nat),
      (pre ++ rest).length ≤ fuel →
      (∀ a b, pre ++ rest = a ++ b → a.length < pre.length → tryP1 b = none) →
      tryP1 rest = some (cap, k) →
      (scanFuel tryP1v fuel prev (pre ++ rest)).head? = some cap
  | [], rest, fuel, prev, cap, k, hf, _, hmatch => by
    rcases rest with _ | ⟨c, r⟩
    · rw [show tryP1 ([] : List Char) = none from rfl] at hmatch
      exact Option.noConfusion hmatch
    · rcases fuel with _ | f
      · simp at hf
      · simp only [List.nil_append]
        rw [scanFuel]
        simp only [tryP1v, hmatch]
        rfl
  | c :: pre', rest, fuel, prev, cap, k, hf, hfirst, hmatch => by
    rcases fuel with _ | f
    · simp at hf
    · have h0 : tryP1 (c :: (pre' ++ rest)) = none :=
        hfirst [] (c :: (pre' ++ rest)) (by simp) (by simp)
      have hfirst' : ∀ a b, pre' ++ rest = a ++ b → a.length < pre'.length →
          tryP1 b = none := by
        intro a b hab hlen
        refine hfirst (c :: a) b ?_ ?_
        · simp [hab]
        · simp only [List.length_cons]
          omega
      have hf' : (pre' ++ rest).length ≤ f := by
        simp only [List.cons_append, List.length_cons] at hf
        omega
      simp only [List.cons_append]
      rw [scanFuel]
      simp only [tryP1v, h0]
      exact scanFuel_first pre' rest f (some c) cap k hf' hfirst' hmatch
  termination_by pre => pre.length

/-- C8, amended: the labeled-id pattern requires no word boundary before the
`id` label, so an earlier accidental label match (e.g. a word ending in `id`
followed by a 6-9 digit run) can win.  For every text containing a labeled
mention `ID: n`, the first element of `extractPotentialLevelIds` equals the
capture of the earliest match of the labeled pattern; in particular it equals
`n` itself whenever the labeled pattern matches at no earlier position. -/
theorem claim_C8 (text : String) (c0 : Char) (n' pre post : List Char)
    (h6 : 6 ≤ (c0 :: n').length) (h9 : (c0 :: n').length ≤ 9)
    (hd : ∀ c ∈ c0 :: n', isDigitCh c = true)
    (hsplit : text.data = pre ++ mentionShape (c0 :: n') post)
    (hpost : nonWordAt post.head? = true)
    (hfirst : ∀ a b, text.data = a ++ b → a.length < pre.length → tryP1 b = none) :
    (extractPotentialLevelIds text).head? = some (String.mk (c0 :: n')) := by
  have hm := tryP1_mention c0 n' post h6 h9 hd hpost
  have hfirst' : ∀ a b, pre ++ mentionShape (c0 :: n') post = a ++ b →
      a.length < pre.length → tryP1 b = none := by
    intro a b hab hlen
    exact hfirst a b (by rw [hsplit, hab]) hlen
  have hscan := scanFuel_first pre (mentionShape (c0 :: n') post)
    (pre ++ mentionShape (c0 :: n') post).length none (c0 :: n')
    (2 + 2 + (c0 :: n').length) le_rfl hfirst' hm
  have hm1 : (matchesP1 text).head? = some (String.mk (c0 :: n')) := by
    rw [matchesP1, List.head?_map, scanAll, hsplit, hscan]
    rfl
  rcases hcons : matchesP1 text with _ | ⟨w, rest⟩
  · rw [hcons] at hm1
    exact Option.noConfusion hm1
  · rw [hcons] at hm1
    simp only [List.head?_cons, Option.some.injEq] at hm1
    rw [← hm1]
    exact extract_head text w rest hcons

/-- C8 counterexample: the text contains the labeled mention `ID: 123456`,
with `999999` present only as a bare digit run after the word `david`, yet the
first extracted element is `999999` (the `id` tail of `david` acts as a label
because the pattern has no left word boundary). -/
theorem claim_C8_cex :
    hasLabeledMention "david 999999 ID: 123456" "123456" ∧
    (extractPotentialLevelIds "david 999999 ID: 123456").head? ≠ some "123456" := by
  constructor
  · exact ⟨by decide, by decide, by decide, "david 999999 ".data, [], by decide, by decide⟩
  · decide

theorem claim_C8_witness :
    (extractPotentialLevelIds "ID: 10565740 wow").head? = some "10565740" := by
  have h := claim_C8 "ID: 10565740 wow" '1' "0565740".data [] " wow".data
    (by decide) (by decide) (by decide) (by decide) (by decide)
    (fun a b _ hlen => absurd hlen (Nat.not_lt_zero a.length))
  exact h

/-! ## Claims about `generateNameVariations` -/

theorem mem_sepFold_of_mem (name : String) (x : String) :
    ∀ (seps : List String) (acc : List String), x ∈ acc → x ∈ sepFold name seps acc
  | [], _, h => h
  | sep :: seps, acc, h => by
    simp only [sepFold, List.foldl_cons]
    have step : x ∈ (if hasSubstr sep.data name.data = true
        then acc ++ splitTrimmed name sep else acc) := by
      by_cases hc : hasSubstr sep.data name.data = true
      · simp only [hc, if_true, List.mem_append]
        exact Or.inl h
      · simpa [hc] using h
    have := mem_sepFold_of_mem name x seps _ step
    simpa [sepFold] using this
  termination_by seps => seps.length

theorem sepFold_adds (name sep x : String) :
    ∀ (seps : List String) (acc : List String), sep ∈ seps →
      hasSubstr sep.data name.data = true → x ∈ splitTrimmed name sep →
      x ∈ sepFold name seps acc
  | [], _, h, _, _ => absurd h (List.not_mem_nil _)
  | s :: seps, acc, h, hc, hx => by
    rcases List.mem_cons.mp h with rfl | h'
    · simp only [sepFold, List.foldl_cons]
      have step : x ∈ (if hasSubstr sep.data name.data = true
          then acc ++ splitTrimmed name sep else acc) := by
        simp only [hc, if_true, List.mem_append]
        exact Or.inr hx
      have := mem_sepFold_of_mem name x seps _ step
      simpa [sepFold] using this
    · have := sepFold_adds name sep x seps
        (if hasSubstr s.data name.data = true then acc ++ splitTrimmed name s else acc)
        h' hc hx
      simp only [sepFold, List.foldl_cons]
      simpa [sepFold] using this
  termination_by seps => seps.length

theorem string_ne_empty_iff (s : String) : s ≠ "" ↔ 0 < s.length := by
  rcases s with ⟨l⟩
  show (String.mk l ≠ String.mk []) ↔ 0 < l.length
  rw [ne_eq, String.ext_iff]
  show ¬(l = []) ↔ 0 < l.length
  exact List.length_pos.symm

theorem mem_generateNameVariations (name x : String) :
    x ∈ generateNameVariations name ↔
      x ∈ sepFold name separators
        (if cleanedNameOf name ≠ name then [name, cleanedNameOf name] else [name]) ∧
      0 < x.length := by
  rw [generateNameVariations]
  simp only [List.mem_filter, dedupFirst, mem_pushNew, decide_eq_true_eq]
  constructor
  · rintro ⟨h | h, hl⟩
    · simp at h
    · exact ⟨h, hl⟩
  · rintro ⟨h, hl⟩
    exact ⟨Or.inr h, hl⟩

/-- C9, amended: the output is duplicate-free, order-preserving and contains
no empty strings; it includes the original name when the name is non-empty,
includes the qualifier-stripped form when stripping changes the string and the
stripped form is non-empty, and for every separator token present includes
each non-empty trimmed side of the split; for `"Sunshine X Slaughterhouse"` it
is exactly `["Sunshine X Slaughterhouse", "Sunshine", "Slaughterhouse"]`. -/
theorem claim_C9 :
    (∀ name : String,
      (generateNameVariations name).Nodup ∧
      "" ∉ generateNameVariations name ∧
      (name ≠ "" → name ∈ generateNameVariations name) ∧
      (cleanedNameOf name ≠ name → cleanedNameOf name ≠ "" →
        cleanedNameOf name ∈ generateNameVariations name) ∧
      (∀ sep ∈ separators, hasSubstr sep.data name.data = true →
        ∀ p ∈ splitTrimmed name sep, p ≠ "" → p ∈ generateNameVariations name)) ∧
    generateNameVariations "Sunshine X Slaughterhouse" =
      ["Sunshine X Slaughterhouse", "Sunshine", "Slaughterhouse"] := by
  constructor
  · intro name
    refine ⟨?_, ?_, ?_, ?_, ?_⟩
    · rw [generateNameVariations]
      exact (nodup_pushNew _ [] List.nodup_nil).filter _
    · intro h
      rw [mem_generateNameVariations] at h
      exact absurd h.2 (by decide)
    · intro hne
      rw [mem_generateNameVariations]
      refine ⟨mem_sepFold_of_mem name name _ _ ?_, (string_ne_empty_iff name).mp hne⟩
      by_cases hc : cleanedNameOf name ≠ name <;> simp [hc]
    · intro hne hne2
      rw [mem_generateNameVariations]
      refine ⟨mem_sepFold_of_mem name _ _ _ ?_, (string_ne_empty_iff _).mp hne2⟩
      simp [hne]
    · intro sep hsep hc p hp hpne
      rw [mem_generateNameVariations]
      exact ⟨sepFold_adds name sep p separators _ hsep hc hp,
        (string_ne_empty_iff p).mp hpne⟩
  · decide

/-- C9 counterexample: for the empty input name the output is empty, so it
does not include the original name. -/
theorem claim_C9_cex :
    generateNameVariations "" = [] ∧ "" ∉ generateNameVariations "" := by
  constructor
  · decide
  · decide

theorem claim_C9_witness :
    "Beating Bloodbath" ∈ generateNameVariations "Beating Bloodbath" ∧
    "Bloodbath" ∈ generateNameVariations "Beating Bloodbath" := by
  have h := claim_C9.1 "Beating Bloodbath"
  refine ⟨h.2.2.1 (by decide), ?_⟩
  have hc : cleanedNameOf "Beating Bloodbath" = "Bloodbath" := by decide
  have h2 := h.2.2.2.1 (by rw [hc]; decide) (by rw [hc]; decide)
  rwa [hc] at h2

/-! ## Claims about `getLevelInfoWithRetry` -/

theorem retryLoopF_hits (oracle : Nat → Except Unit (Option LevelInfo)) :
    ∀ (k rem i : Nat) (v : Option LevelInfo), k < rem →
      (∀ j, j < k → oracle (i + j) = Except.error ()) →
      oracle (i + k) = Except.ok v →
      retryLoopF oracle rem i =
        (v, k + 1, (List.range k).map fun j => 1000 * 2 ^ (i + j))
  | 0, rem, i, v, hk, _, hok => by
    rcases rem with _ | r
    · omega
    · rw [retryLoopF]
      simp only [Nat.add_zero] at hok
      rw [hok]
      simp
  | k + 1, rem, i, v, hk, herr, hok => by
    rcases rem with _ | r
    · omega
    · have h0 : oracle i = Except.error () := by
        have := herr 0 (by omega)
        simpa using this
      rw [retryLoopF, h0]
      have hr : ¬(r = 0) := by omega
      simp only [hr, if_false]
      have ih := retryLoopF_hits oracle k r (i + 1) v (by omega)
        (fun j hj => by
          have := herr (j + 1) (by omega)
          simpa [Nat.add_assoc, Nat.add_comm 1 j] using this)
        (by simpa [Nat.add_assoc, Nat.add_comm 1 k] using hok)
      rw [ih]
      refine Prod.ext rfl (Prod.ext rfl ?_)
      show (1000 * 2 ^ i) :: (List.range k).map (fun j => 1000 * 2 ^ (i + 1 + j)) =
        (List.range (k + 1)).map fun j => 1000 * 2 ^ (i + j)
      rw [List.range_succ_eq_map, List.map_cons, List.map_map]
      simp only [Nat.add_zero, Function.comp]
      congr 1
      apply List.map_congr_left
      intro j _
      have h : i + 1 + j = i + (j + 1) := by omega
      rw [h]
      rfl

theorem retryLoopF_all_fail (oracle : Nat → Except Unit (Option LevelInfo)) :
    ∀ (rem i : Nat), 1 ≤ rem →
      (∀ j, j < rem → oracle (i + j) = Except.error ()) →
      retryLoopF oracle rem i =
        (none, rem, (List.range (rem - 1)).map fun j => 1000 * 2 ^ (i + j))
  | 0, _, h, _ => by omega
  | rem + 1, i, _, herr => by
    have h0 : oracle i = Except.error () := by
      have := herr 0 (by omega)
      simpa using this
    rw [retryLoopF, h0]
    rcases Nat.eq_zero_or_pos rem with rfl | hpos
    · simp
    · have hr : ¬(rem = 0) := by omega
      simp only [hr, if_false]
      have ih := retryLoopF_all_fail oracle rem (i + 1) hpos
        (fun j hj => by
          have := herr (j + 1) (by omega)
          simpa [Nat.add_assoc, Nat.add_comm 1 j] using this)
      rw [ih]
      refine Prod.ext rfl (Prod.ext rfl ?_)
      show (1000 * 2 ^ i) :: (List.range (rem - 1)).map (fun j => 1000 * 2 ^ (i + 1 + j)) =
        (List.range (rem + 1 - 1)).map fun j => 1000 * 2 ^ (i + j)
      have hrem : rem + 1 - 1 = (rem - 1) + 1 := by omega
      rw [hrem, List.range_succ_eq_map, List.map_cons, List.map_map]
      simp only [Nat.add_zero, Function.comp]
      congr 1
      apply List.map_congr_left
      intro j _
      have h : i + 1 + j = i + (j + 1) := by omega
      rw [h]
      rfl

/-- C4: the retry wrapper returns at once on a clean not-found without
retrying; it retries only while the underlying lookup raises, sleeping
`1000 * 2 ^ attempt` between attempts; and when every one of the `retries`
attempts raises (3 by default) it returns absent instead of propagating. -/
theorem claim_C4 (oracle : Nat → Except Unit (Option LevelInfo)) (retries : Nat) :
    defaultRetries = 3 ∧
    (1 ≤ retries → oracle 0 = Except.ok none →
      getLevelInfoWithRetry oracle retries = (none, 1, [])) ∧
    (∀ k v, k < retries → (∀ j, j < k → oracle j = Except.error ()) →
      oracle k = Except.ok v →
      getLevelInfoWithRetry oracle retries =
        (v, k + 1, (List.range k).map fun j => 1000 * 2 ^ j)) ∧
    (1 ≤ retries → (∀ j, j < retries → oracle j = Except.error ()) →
      getLevelInfoWithRetry oracle retries =
        (none, retries, (List.range (retries - 1)).map fun j => 1000 * 2 ^ j)) := by
  refine ⟨rfl, ?_, ?_, ?_⟩
  · intro h1 hok
    have := retryLoopF_hits oracle 0 retries 0 none h1 (by omega) (by simpa using hok)
    simpa [getLevelInfoWithRetry] using this
  · intro k v hk herr hok
    have := retryLoopF_hits oracle k retries 0 v hk
      (fun j hj => by simpa using herr j hj) (by simpa using hok)
    simpa [getLevelInfoWithRetry] using this
  · intro h1 herr
    have := retryLoopF_all_fail oracle retries 0 h1
      (fun j hj => by simpa using herr j hj)
    simpa [getLevelInfoWithRetry] using this

theorem claim_C4_witness :
    getLevelInfoWithRetry
        (fun i => if i < 2 then Except.error ()
                  else Except.ok (some { id := "10565740", name := "Bloodbath" })) 3
      = (some { id := "10565740", name := "Bloodbath" }, 3, [1000, 2000]) ∧
    getLevelInfoWithRetry (fun _ => Except.ok none) 3 = (none, 1, []) ∧
    getLevelInfoWithRetry (fun _ => Except.error ()) 3 = (none, 3, [1000, 2000]) := by
  have h1 := (claim_C4 (fun i => if i < 2 then Except.error ()
      else Except.ok (some { id := "10565740", name := "Bloodbath" })) 3).2.2.1
    2 (some { id := "10565740", name := "Bloodbath" }) (by omega)
    (fun j hj => by
      have : j < 2 := hj
      simp [this])
    rfl
  have h2 := (claim_C4 (fun _ => Except.ok none) 3).2.1 (by omega) rfl
  have h3 := (claim_C4 (fun _ => Except.error ()) 3).2.2.2 (by omega) (fun j _ => rfl)
  refine ⟨?_, h2, ?_⟩
  · rw [h1]
    decide
  · rw [h3]
    decide

/-! ## Run equations for the orchestrator -/

theorem bind_run {α β : Type} (x : M α) (f : α → M β) (t : List Call) :
    (x >>= f) t = match x t with
      | (t1, Except.ok a) => f a t1
      | (t1, Except.error e) => (t1, Except.error e) := rfl

theorem pure_run {α : Type} (a : α) (t : List Call) :
    (pure a : M α) t = (t, Except.ok a) := rfl

theorem absorb_lookup_run (env : Env) (id : String) (t : List Call) :
    absorbOpt (lookupM env id) t =
      (t ++ [Call.lookup id], Except.ok (eoOpt (env.lookup id))) := by
  simp only [absorbOpt]
  rw [show lookupM env id t = (t ++ [Call.lookup id], env.lookup id) from rfl]
  cases env.lookup id <;> rfl

theorem absorb_search_run (env : Env) (nm : String) (t : List Call) :
    absorbOpt (searchM env nm) t =
      (t ++ [Call.search nm], Except.ok (eoOpt (env.search nm))) := by
  simp only [absorbOpt]
  rw [show searchM env nm t = (t ++ [Call.search nm], env.search nm) from rfl]
  cases env.search nm <;> rfl

theorem absorb_ai_run (env : Env) (t : List Call) :
    absorbOpt (aiM env) t = (t ++ [Call.aiExtract], Except.ok (eoOpt env.ai)) := by
  simp only [absorbOpt]
  rw [show aiM env t = (t ++ [Call.aiExtract], env.ai) from rfl]
  cases env.ai <;> rfl

theorem absorb_fetch_run (env : Env) (t : List Call) :
    absorbOpt (fetchMetaM env) t =
      (t ++ [Call.fetchMeta], Except.ok (eoOpt env.fetchMeta)) := by
  simp only [absorbOpt]
  rw [show fetchMetaM env t = (t ++ [Call.fetchMeta], env.fetchMeta) from rfl]
  cases env.fetchMeta <;> rfl

theorem stage1_run (env : Env) (m : VideoMetadata) :
    ∀ (ids : List String) (t : List Call),
      stage1 env m ids t =
        (t ++ (lookTried env.lookup ids).map Call.lookup,
         Except.ok ((firstLookupHit env.lookup ids).map
           fun p => regexSuccessResult p.1 p.2 m))
  | [], t => by
    simp [stage1, lookTried, firstLookupHit, pure_run]
  | id :: rest, t => by
    have hrec := stage1_run env m rest (t ++ [Call.lookup id])
    simp only [stage1]
    rw [bind_run, absorb_lookup_run]
    rcases hl : env.lookup id with e | v
    · simp only [eoOpt]
      rw [hrec]
      simp [lookTried, firstLookupHit, hl]
    · rcases v with _ | info
      · simp only [eoOpt]
        rw [hrec]
        simp [lookTried, firstLookupHit, hl]
      · simp only [eoOpt]
        rw [pure_run]
        simp [lookTried, firstLookupHit, hl]
  termination_by ids => ids.length

theorem searchNamesLoop_run (env : Env) :
    ∀ (names : List String) (t : List Call),
      searchNamesLoop env names t =
        (t ++ (triedUntilHit env.search names).map Call.search,
         Except.ok (firstSearchHit env.search names))
  | [], t => by
    simp [searchNamesLoop, triedUntilHit, firstSearchHit, pure_run]
  | nm :: rest, t => by
    have hrec := searchNamesLoop_run env rest (t ++ [Call.search nm])
    simp only [searchNamesLoop]
    rw [bind_run, absorb_search_run]
    rcases hl : env.search nm with e | v
    · simp only [eoOpt]
      rw [hrec]
      simp [triedUntilHit, firstSearchHit, hl]
    · rcases v with _ | info
      · simp only [eoOpt]
        rw [hrec]
        simp [triedUntilHit, firstSearchHit, hl]
      · simp only [eoOpt]
        rw [pure_run]
        simp [triedUntilHit, firstSearchHit, hl]
  termination_by names => names.length

theorem firstSearchHit_none_triedUntilHit
    (search : String → Except Unit (Option LevelInfo)) :
    ∀ (l : List String), firstSearchHit search l = none → triedUntilHit search l = l
  | [], _ => rfl
  | nm :: rest, h => by
    rcases hl : search nm with e | v
    · rw [triedUntilHit, hl]
      rw [firstSearchHit, hl] at h
      rw [firstSearchHit_none_triedUntilHit search rest h]
    · rcases v with _ | info
      · rw [triedUntilHit, hl]
        rw [firstSearchHit, hl] at h
        rw [firstSearchHit_none_triedUntilHit search rest h]
      · rw [firstSearchHit, hl] at h
        exact Option.noConfusion h
  termination_by l => l.length

theorem firstSearchHit_append (search : String → Except Unit (Option LevelInfo)) :
    ∀ (l1 l2 : List String),
      firstSearchHit search (l1 ++ l2) =
        (match firstSearchHit search l1 with
         | some info => some info
         | none => firstSearchHit search l2)
  | [], l2 => rfl
  | nm :: rest, l2 => by
    rcases hl : search nm with e | v
    · simp only [List.cons_append, firstSearchHit, hl]
      exact firstSearchHit_append search rest l2
    · rcases v with _ | info
      · simp only [List.cons_append, firstSearchHit, hl]
        exact firstSearchHit_append search rest l2
      · simp only [List.cons_append, firstSearchHit, hl]
  termination_by l1 => l1.length

theorem triedUntilHit_append (search : String → Except Unit (Option LevelInfo)) :
    ∀ (l1 l2 : List String),
      triedUntilHit search (l1 ++ l2) =
        (match firstSearchHit search l1 with
         | some _ => triedUntilHit search l1
         | none => l1 ++ triedUntilHit search l2)
  | [], l2 => rfl
  | nm :: rest, l2 => by
    rcases hl : search nm with e | v
    · simp only [List.cons_append, triedUntilHit, firstSearchHit, hl, List.append_eq]
      rw [triedUntilHit_append search rest l2]
      rcases firstSearchHit search rest with _ | info <;> simp
    · rcases v with _ | info
      · simp only [List.cons_append, triedUntilHit, firstSearchHit, hl, List.append_eq]
        rw [triedUntilHit_append search rest l2]
        rcases firstSearchHit search rest with _ | info <;> simp
      · simp only [List.cons_append, triedUntilHit, firstSearchHit, hl]
  termination_by l1 => l1.length

theorem fallback_run (env : Env) (names : List String) (t : List Call) :
    searchLevelByNameWithFallback env names t =
      (t ++ (triedUntilHit env.search (searchOrder names)).map Call.search,
       Except.ok (firstSearchHit env.search (searchOrder names))) := by
  rcases h1 : firstSearchHit env.search names with _ | info
  · simp only [searchLevelByNameWithFallback, bind_run, searchNamesLoop_run, h1]
    rw [searchOrder, triedUntilHit_append, firstSearchHit_append, h1,
      firstSearchHit_none_triedUntilHit env.search names h1]
    simp [List.append_assoc]
  · simp only [searchLevelByNameWithFallback, bind_run, searchNamesLoop_run, h1, pure_run]
    rw [searchOrder, triedUntilHit_append, firstSearchHit_append, h1]

theorem stage2Go_run (env : Env) (m : VideoMetadata) (rids : List String) (a : AiResult)
    (t : List Call) :
    stage2Go env m rids a t =
      (t ++ stage2TraceOf a rids, Except.ok (stage2ResOf env m rids a)) := by
  rcases hlid : a.levelId with _ | lid
  · simp [stage2Go, stage2TraceOf, stage2ResOf, semCond, hlid, pure_run]
  · by_cases hcond : lid ≠ "" ∧ a.confidence ≠ Confidence.low ∧ lid ∉ rids
    · simp only [stage2Go, hlid]
      rw [if_pos hcond, bind_run, absorb_lookup_run]
      have hsem : semCond a rids = some lid := by
        simp only [semCond, hlid]
        rw [if_pos hcond]
      rcases hl : env.lookup lid with e | v
      · simp only [eoOpt, pure_run]
        simp [stage2TraceOf, stage2ResOf, hsem, hl]
      · rcases v with _ | info
        · simp only [eoOpt, pure_run]
          simp [stage2TraceOf, stage2ResOf, hsem, hl]
        · simp only [eoOpt, pure_run]
          simp [stage2TraceOf, stage2ResOf, hsem, hl]
    · simp only [stage2Go, hlid]
      rw [if_neg hcond, pure_run]
      have hsem : semCond a rids = none := by
        simp only [semCond, hlid]
        rw [if_neg hcond]
      simp [stage2TraceOf, stage2ResOf, hsem]

theorem stage3Go_run (env : Env) (m : VideoMetadata) (a : AiResult) (t : List Call) :
    stage3Go env m a t =
      (t ++ stage3TraceOf env a, Except.ok (stage3ResOf env m a)) := by
  by_cases hg : a.levelNames ≠ [] ∧ a.confidence ≠ Confidence.low
  · simp only [stage3Go]
    rw [if_pos hg, bind_run]
    have habs : absorbOpt (searchLevelByNameWithFallback env a.levelNames) t =
        (t ++ (triedUntilHit env.search (searchOrder a.levelNames)).map Call.search,
         Except.ok (some (firstSearchHit env.search (searchOrder a.levelNames)))) := by
      simp only [absorbOpt]
      rw [fallback_run]
    rw [habs]
    rcases hfs : firstSearchHit env.search (searchOrder a.levelNames) with _ | info
    · simp only [pure_run]
      simp [stage3TraceOf, stage3ResOf, hg, hfs]
    · simp only [pure_run]
      simp [stage3TraceOf, stage3ResOf, hg, hfs]
  · simp only [stage3Go]
    rw [if_neg hg, pure_run]
    simp [stage3TraceOf, stage3ResOf, hg]

/-- Master lemma: the monadic orchestrator run equals its pure
characterization, on every environment and starting trace. -/
theorem run_eq (env : Env) (t : List Call) :
    extractAndValidateLevelId env t = (t ++ runTrace env, Except.ok (runResult env)) := by
  simp only [extractAndValidateLevelId]
  rw [bind_run, absorb_fetch_run]
  rcases hf : env.fetchMeta with e | mo
  · simp only [eoOpt, pure_run]
    simp [runTrace, runResult, eoOpt, hf]
  · rcases mo with _ | m
    · simp only [eoOpt, pure_run]
      simp [runTrace, runResult, eoOpt, hf]
    · simp only [eoOpt]
      rw [bind_run, stage1_run]
      rcases h1 : firstLookupHit env.lookup (extractPotentialLevelIds (combinedText m))
        with _ | p
      · simp only [h1, Option.map_none']
        rw [bind_run, absorb_ai_run]
        rcases hai : env.ai with e | a
        · simp only [eoOpt]
          simp [bind_run, pure_run, runTrace, runResult, eoOpt, hf, hai, stage1ResOf, h1]
        · simp only [eoOpt]
          rw [bind_run, stage2Go_run]
          rcases h2 : stage2ResOf env m (extractPotentialLevelIds (combinedText m)) a
            with _ | r2
          · simp only [h2]
            rw [bind_run, stage3Go_run]
            rcases h3 : stage3ResOf env m a with _ | r3
            · simp only [h3]
              simp [bind_run, pure_run, runTrace, runResult, eoOpt, hf, hai,
                stage1ResOf, h1, h2, h3]
            · simp only [h3]
              simp [bind_run, pure_run, runTrace, runResult, eoOpt, hf, hai,
                stage1ResOf, h1, h2, h3]
          · simp only [h2]
            simp [bind_run, pure_run, runTrace, runResult, eoOpt, hf, hai,
              stage1ResOf, h1, h2]
      · simp only [h1, Option.map_some']
        simp [bind_run, pure_run, runTrace, runResult, eoOpt, hf, stage1ResOf, h1]

/-! ## Helper lemmas about the pure characterization -/

theorem firstLookupHit_none_of (lookup : String → Except Unit (Option LevelInfo))
    (h : ∀ id, lookup id = Except.ok none ∨ lookup id = Except.error ()) :
    ∀ l, firstLookupHit lookup l = none
  | [] => rfl
  | id :: rest => by
    have hrec := firstLookupHit_none_of lookup h rest
    rcases h id with hl | hl <;> simp [firstLookupHit, hl, hrec]

theorem firstSearchHit_none_of (search : String → Except Unit (Option LevelInfo))
    (h : ∀ nm, search nm = Except.ok none ∨ search nm = Except.error ()) :
    ∀ l, firstSearchHit search l = none
  | [] => rfl
  | nm :: rest => by
    have hrec := firstSearchHit_none_of search h rest
    rcases h nm with hl | hl <;> simp [firstSearchHit, hl, hrec]

theorem lookTried_of_no_hit (lookup : String → Except Unit (Option LevelInfo)) :
    ∀ l, firstLookupHit lookup l = none → lookTried lookup l = l
  | [], _ => rfl
  | id :: rest, h => by
    rcases hl : lookup id with e | v
    · rw [lookTried, hl]
      rw [firstLookupHit, hl] at h
      rw [lookTried_of_no_hit lookup rest h]
    · rcases v with _ | info
      · rw [lookTried, hl]
        rw [firstLookupHit, hl] at h
        rw [lookTried_of_no_hit lookup rest h]
      · rw [firstLookupHit, hl] at h
        exact Option.noConfusion h

theorem lookTried_take (lookup : String → Except Unit (Option LevelInfo)) :
    ∀ l, ∃ k, lookTried lookup l = l.take k
  | [] => ⟨0, rfl⟩
  | id :: rest => by
    rcases hl : lookup id with e | v
    · obtain ⟨k, hk⟩ := lookTried_take lookup rest
      exact ⟨k + 1, by simp [lookTried, hl, hk]⟩
    · rcases v with _ | info
      · obtain ⟨k, hk⟩ := lookTried_take lookup rest
        exact ⟨k + 1, by simp [lookTried, hl, hk]⟩
      · exact ⟨1, by simp [lookTried, hl]⟩

theorem semCond_eq_some (a : AiResult) (rids : List String) (lid : String)
    (h : semCond a rids = some lid) :
    a.levelId = some lid ∧ lid ≠ "" ∧ a.confidence ≠ Confidence.low ∧ lid ∉ rids := by
  rw [semCond] at h
  split at h
  · exact Option.noConfusion h
  · rename_i l hl
    split at h
    · rename_i hc
      obtain rfl : l = lid := Option.some.inj h
      exact ⟨hl, hc⟩
    · exact Option.noConfusion h

theorem semCond_intro (a : AiResult) (rids : List String) (lid : String)
    (hl : a.levelId = some lid) (h1 : lid ≠ "") (h2 : a.confidence ≠ Confidence.low)
    (h3 : lid ∉ rids) : semCond a rids = some lid := by
  simp only [semCond, hl]
  rw [if_pos ⟨h1, h2, h3⟩]

/-- Every result the characterization can produce is well-formed. -/
theorem WF_runResult (env : Env) : WFResult (runResult env) := by
  simp only [runResult]
  rcases hf : eoOpt env.fetchMeta with _ | mo
  · exact Or.inr (Or.inl ⟨rfl, rfl, rfl, rfl, rfl, rfl⟩)
  · rcases mo with _ | m
    · exact Or.inr (Or.inl ⟨rfl, rfl, rfl, rfl, rfl, rfl⟩)
    · simp only []
      rcases h1 : stage1ResOf env m (extractPotentialLevelIds (combinedText m)) with _ | r1
      · simp only [h1]
        rcases hai : eoOpt env.ai with _ | a
        · exact Or.inr (Or.inr ⟨rfl, rfl, rfl, rfl, rfl, m, rfl⟩)
        · simp only []
          rcases h2 : stage2ResOf env m (extractPotentialLevelIds (combinedText m)) a
            with _ | r2
          · simp only [h2]
            rcases h3 : stage3ResOf env m a with _ | r3
            · simp only [h3]
              exact Or.inr (Or.inr ⟨rfl, rfl, rfl, rfl, rfl, m, rfl⟩)
            · simp only [h3]
              rw [stage3ResOf] at h3
              by_cases hg : a.levelNames ≠ [] ∧ a.confidence ≠ Confidence.low
              · rw [if_pos hg] at h3
                rcases hfs : firstSearchHit env.search (searchOrder a.levelNames)
                  with _ | info
                · rw [hfs] at h3
                  exact Option.noConfusion h3
                · rw [hfs, Option.map_some'] at h3
                  obtain rfl := Option.some.inj h3
                  exact Or.inl ⟨rfl, rfl, info.id, info, Stage.name_search, m,
                    rfl, rfl, rfl, rfl⟩
              · rw [if_neg hg] at h3
                exact Option.noConfusion h3
          · simp only [h2]
            rw [stage2ResOf] at h2
            split at h2
            · split at h2
              · obtain rfl := Option.some.inj h2
                exact Or.inl ⟨rfl, rfl, _, _, _, _, rfl, rfl, rfl, rfl⟩
              · exact Option.noConfusion h2
            · exact Option.noConfusion h2
      · simp only [h1]
        rw [stage1ResOf] at h1
        rcases hfl : firstLookupHit env.lookup (extractPotentialLevelIds (combinedText m))
          with _ | p
        · rw [hfl] at h1
          exact Option.noConfusion h1
        · rw [hfl, Option.map_some'] at h1
          obtain rfl := Option.some.inj h1
          exact Or.inl ⟨rfl, rfl, p.1, p.2, Stage.regex, m, rfl, rfl, rfl, rfl⟩

theorem runResult_all_miss (env : Env) (m : VideoMetadata)
    (hm : env.fetchMeta = Except.ok (some m))
    (hlk : ∀ id, env.lookup id = Except.ok none ∨ env.lookup id = Except.error ())
    (hse : ∀ nm, env.search nm = Except.ok none ∨ env.search nm = Except.error ()) :
    runResult env = failureResult ErrorKind.NO_LEVEL_ID_FOUND (some m) := by
  have hfl := firstLookupHit_none_of env.lookup hlk
  have hfs := firstSearchHit_none_of env.search hse
  have hfm : eoOpt env.fetchMeta = some (some m) := by rw [hm]; rfl
  simp only [runResult, hfm]
  simp only [stage1ResOf, hfl, Option.map_none']
  rcases hai : env.ai with e | a
  · rfl
  · simp only [eoOpt]
    have h2 : stage2ResOf env m (extractPotentialLevelIds (combinedText m)) a = none := by
      rw [stage2ResOf]
      split
      · rename_i lid hsc
        rcases hlk lid with h | h <;> simp [h]
      · rfl
    have h3 : stage3ResOf env m a = none := by
      rw [stage3ResOf]
      by_cases hg : a.levelNames ≠ [] ∧ a.confidence ≠ Confidence.low
      · rw [if_pos hg, hfs, Option.map_none']
      · rw [if_neg hg]
    simp only [h2, h3]

/-- C1: the orchestrator never propagates an exception: for every environment
(including ones whose oracles throw) the run returns `Except.ok` with a
well-formed result that is exactly one Success or Failure variant; and when
metadata is fetched but every lookup and search misses (the semantic oracle
may even throw, absorbed), the result is the `NO_LEVEL_ID_FOUND` failure with
the fetched metadata attached. -/
theorem claim_C1 :
    (∀ (env : Env) (t : List Call), ∃ r,
      extractAndValidateLevelId env t = (t ++ runTrace env, Except.ok r) ∧ WFResult r) ∧
    (∀ (env : Env) (m : VideoMetadata),
      env.fetchMeta = Except.ok (some m) →
      (∀ id, env.lookup id = Except.ok none ∨ env.lookup id = Except.error ()) →
      (∀ nm, env.search nm = Except.ok none ∨ env.search nm = Except.error ()) →
      extractAndValidateLevelId env [] =
        (runTrace env,
         Except.ok (failureResult ErrorKind.NO_LEVEL_ID_FOUND (some m)))) := by
  constructor
  · intro env t
    exact ⟨runResult env, run_eq env t, WF_runResult env⟩
  · intro env m hm hlk hse
    rw [run_eq, runResult_all_miss env m hm hlk hse]
    simp

theorem claim_C1_witness :
    extractAndValidateLevelId
      { fetchMeta := Except.ok (some
          { title := "t", description := "", channelTitle := "c", tags := [] }),
        lookup := fun _ => Except.ok none,
        ai := Except.error (),
        search := fun _ => Except.ok none } [] =
      (runTrace
        { fetchMeta := Except.ok (some
            { title := "t", description := "", channelTitle := "c", tags := [] }),
          lookup := fun _ => Except.ok none,
          ai := Except.error (),
          search := fun _ => Except.ok none },
       Except.ok (failureResult ErrorKind.NO_LEVEL_ID_FOUND
         (some { title := "t", description := "", channelTitle := "c", tags := [] }))) :=
  claim_C1.2 _ _ rfl (fun _ => Or.inl rfl) (fun _ => Or.inl rfl)

/-- C5: an absent or failed metadata fetch terminates the run with the
`VIDEO_NOT_FOUND` (SOURCE_NOT_FOUND) failure, and the trace is exactly the
one metadata call: no lookup, semantic, or search call is made. -/
theorem claim_C5 (env : Env)
    (h : env.fetchMeta = Except.error () ∨ env.fetchMeta = Except.ok none) :
    extractAndValidateLevelId env [] =
      ([Call.fetchMeta], Except.ok (failureResult ErrorKind.VIDEO_NOT_FOUND none)) := by
  rw [run_eq]
  rcases h with h | h <;> simp [runTrace, runResult, eoOpt, h]

theorem claim_C5_witness :
    extractAndValidateLevelId
      { fetchMeta := Except.error (),
        lookup := fun _ => Except.ok none,
        ai := Except.error (),
        search := fun _ => Except.ok none } [] =
      ([Call.fetchMeta], Except.ok (failureResult ErrorKind.VIDEO_NOT_FOUND none)) :=
  claim_C5 _ (Or.inl rfl)

/-- C10: `searchLevelByNameWithFallback` applied to an empty sequence of names
returns absent without issuing a single search call: the trace is unchanged. -/
theorem claim_C10 (env : Env) (t : List Call) :
    searchLevelByNameWithFallback env [] t = (t, Except.ok none) := by
  rw [fallback_run]
  simp [searchOrder, uniqueVariations, dedupFirst, pushNew, triedUntilHit, firstSearchHit]

/-! ## Trace projections -/

theorem lookupSubs_append (l1 l2 : List Call) :
    lookupSubmissions (l1 ++ l2) = lookupSubmissions l1 ++ lookupSubmissions l2 := by
  simp [lookupSubmissions, List.filterMap_append]

theorem lookupSubs_fetch (tr : List Call) :
    lookupSubmissions (Call.fetchMeta :: tr) = lookupSubmissions tr := by
  simp [lookupSubmissions, List.filterMap_cons]

theorem lookupSubs_aiev (tr : List Call) :
    lookupSubmissions (Call.aiExtract :: tr) = lookupSubmissions tr := by
  simp [lookupSubmissions, List.filterMap_cons]

theorem lookupSubs_lookup_cons (id : String) (tr : List Call) :
    lookupSubmissions (Call.lookup id :: tr) = id :: lookupSubmissions tr := by
  simp [lookupSubmissions, List.filterMap_cons]

theorem lookupSubs_map_lookup (l : List String) :
    lookupSubmissions (l.map Call.lookup) = l := by
  induction l with
  | nil => rfl
  | cons x xs ih => simp [lookupSubs_lookup_cons, ih]

theorem lookupSubs_map_search (l : List String) :
    lookupSubmissions (l.map Call.search) = [] := by
  induction l with
  | nil => rfl
  | cons x xs ih =>
    simp only [List.map_cons]
    rw [show lookupSubmissions (Call.search x :: xs.map Call.search)
      = lookupSubmissions (xs.map Call.search) from by
        simp [lookupSubmissions, List.filterMap_cons]]
    exact ih

theorem lookupSubs_nil : lookupSubmissions [] = [] := rfl

theorem searchSubs_append (l1 l2 : List Call) :
    searchSubmissions (l1 ++ l2) = searchSubmissions l1 ++ searchSubmissions l2 := by
  simp [searchSubmissions, List.filterMap_append]

theorem searchSubs_fetch (tr : List Call) :
    searchSubmissions (Call.fetchMeta :: tr) = searchSubmissions tr := by
  simp [searchSubmissions, List.filterMap_cons]

theorem searchSubs_aiev (tr : List Call) :
    searchSubmissions (Call.aiExtract :: tr) = searchSubmissions tr := by
  simp [searchSubmissions, List.filterMap_cons]

theorem searchSubs_lookup_cons (id : String) (tr : List Call) :
    searchSubmissions (Call.lookup id :: tr) = searchSubmissions tr := by
  simp [searchSubmissions, List.filterMap_cons]

theorem searchSubs_map_lookup (l : List String) :
    searchSubmissions (l.map Call.lookup) = [] := by
  induction l with
  | nil => rfl
  | cons x xs ih =>
    simp only [List.map_cons]
    rw [show searchSubmissions (Call.lookup x :: xs.map Call.lookup)
      = searchSubmissions (xs.map Call.lookup) from searchSubs_lookup_cons x _]
    exact ih

theorem searchSubs_map_search (l : List String) :
    searchSubmissions (l.map Call.search) = l := by
  induction l with
  | nil => rfl
  | cons x xs ih =>
    simp only [List.map_cons]
    rw [show searchSubmissions (Call.search x :: xs.map Call.search)
      = x :: searchSubmissions (xs.map Call.search) from by
        simp [searchSubmissions, List.filterMap_cons]]
    rw [ih]

theorem searchSubs_nil : searchSubmissions [] = [] := rfl

theorem stage1ResOf_eq_none (env : Env) (m : VideoMetadata) (rids : List String)
    (h : stage1ResOf env m rids = none) : firstLookupHit env.lookup rids = none := by
  rw [stage1ResOf] at h
  exact Option.map_eq_none'.mp h

theorem lookupSubs_stage3 (env : Env) (a : AiResult) :
    lookupSubmissions (stage3TraceOf env a) = [] := by
  rw [stage3TraceOf]
  by_cases hg : a.levelNames ≠ [] ∧ a.confidence ≠ Confidence.low
  · rw [if_pos hg, lookupSubs_map_search]
  · rw [if_neg hg]
    rfl

/-- C3: within one run no candidate is submitted to the lookup oracle twice:
the pattern-stage candidate list is duplicate-free, and the full sequence of
identifiers submitted over a run (pattern stage plus the optional semantic
submission, which is gated on not being among the pattern candidates) is
duplicate-free, for every environment. -/
theorem claim_C3 :
    (∀ text, (extractPotentialLevelIds text).Nodup) ∧
    (∀ env : Env, (lookupSubmissions (runTrace env)).Nodup) := by
  refine ⟨extract_nodup, ?_⟩
  intro env
  simp only [runTrace]
  rcases hf : eoOpt env.fetchMeta with _ | mo
  · simp [lookupSubs_fetch, lookupSubs_nil]
  · rcases mo with _ | m
    · simp [lookupSubs_fetch, lookupSubs_nil]
    · rw [lookupSubs_fetch, lookupSubs_append, lookupSubs_map_lookup]
      rcases h1 : stage1ResOf env m (extractPotentialLevelIds (combinedText m)) with _ | r1
      · have hfl := stage1ResOf_eq_none env m _ h1
        rw [lookTried_of_no_hit env.lookup _ hfl, lookupSubs_aiev]
        rcases hai : eoOpt env.ai with _ | a
        · rw [lookupSubs_nil, List.append_nil]
          exact extract_nodup _
        · rw [lookupSubs_append]
          rcases hsc : semCond a (extractPotentialLevelIds (combinedText m)) with _ | lid
          · rw [show stage2TraceOf a (extractPotentialLevelIds (combinedText m)) = []
              from by rw [stage2TraceOf, hsc]]
            rw [lookupSubs_nil, List.nil_append]
            rcases h2 : stage2ResOf env m (extractPotentialLevelIds (combinedText m)) a
              with _ | r2
            · rw [lookupSubs_stage3, List.append_nil]
              exact extract_nodup _
            · rw [lookupSubs_nil, List.append_nil]
              exact extract_nodup _
          · rw [show stage2TraceOf a (extractPotentialLevelIds (combinedText m))
              = [Call.lookup lid] from by rw [stage2TraceOf, hsc]]
            rw [lookupSubs_lookup_cons, lookupSubs_nil]
            have hnotin := (semCond_eq_some a _ lid hsc).2.2.2
            have hnd := extract_nodup (combinedText m)
            rcases h2 : stage2ResOf env m (extractPotentialLevelIds (combinedText m)) a
              with _ | r2
            · rw [lookupSubs_stage3]
              rw [List.nodup_append]
              exact ⟨hnd, by simp, by simp [List.disjoint_singleton, hnotin]⟩
            · rw [lookupSubs_nil]
              rw [List.nodup_append]
              exact ⟨hnd, by simp, by simp [List.disjoint_singleton, hnotin]⟩
      · rw [lookupSubs_nil, List.append_nil]
        obtain ⟨k, hk⟩ := lookTried_take env.lookup (extractPotentialLevelIds (combinedText m))
        rw [hk]
        exact (extract_nodup _).sublist (List.take_sublist _ _)

theorem lookupSubs_runTrace_miss (env : Env) (m : VideoMetadata)
    (hm : env.fetchMeta = Except.ok (some m))
    (hmiss : firstLookupHit env.lookup (extractPotentialLevelIds (combinedText m)) = none) :
    lookupSubmissions (runTrace env) =
      extractPotentialLevelIds (combinedText m) ++
        (match eoOpt env.ai with
         | some a =>
           (match semCond a (extractPotentialLevelIds (combinedText m)) with
            | some lid => [lid]
            | none => [])
         | none => []) := by
  have hfm : eoOpt env.fetchMeta = some (some m) := by rw [hm]; rfl
  simp only [runTrace, hfm]
  have h1 : stage1ResOf env m (extractPotentialLevelIds (combinedText m)) = none := by
    rw [stage1ResOf, hmiss]
    rfl
  simp only [h1]
  rw [lookupSubs_fetch, lookupSubs_append, lookupSubs_map_lookup,
    lookTried_of_no_hit env.lookup _ hmiss, lookupSubs_aiev]
  rcases hai : eoOpt env.ai with _ | a
  · simp [lookupSubs_nil]
  · rw [lookupSubs_append]
    rcases hsc : semCond a (extractPotentialLevelIds (combinedText m)) with _ | lid
    · rw [show stage2TraceOf a (extractPotentialLevelIds (combinedText m)) = []
        from by rw [stage2TraceOf, hsc]]
      rcases h2 : stage2ResOf env m (extractPotentialLevelIds (combinedText m)) a
        with _ | r2 <;>
        simp [lookupSubs_stage3, lookupSubs_nil, hsc]
    · rw [show stage2TraceOf a (extractPotentialLevelIds (combinedText m))
        = [Call.lookup lid] from by rw [stage2TraceOf, hsc]]
      rw [lookupSubs_lookup_cons, lookupSubs_nil]
      rcases h2 : stage2ResOf env m (extractPotentialLevelIds (combinedText m)) a
        with _ | r2 <;>
        simp [lookupSubs_stage3, lookupSubs_nil, hsc]

theorem lookupSubs_runTrace_miss_ok (env : Env) (m : VideoMetadata) (a : AiResult)
    (hm : env.fetchMeta = Except.ok (some m))
    (hmiss : firstLookupHit env.lookup (extractPotentialLevelIds (combinedText m)) = none)
    (hai : env.ai = Except.ok a) :
    lookupSubmissions (runTrace env) =
      extractPotentialLevelIds (combinedText m) ++
        (match semCond a (extractPotentialLevelIds (combinedText m)) with
         | some lid => [lid]
         | none => []) := by
  have ha : eoOpt env.ai = some a := by rw [hai]; rfl
  rw [lookupSubs_runTrace_miss env m hm hmiss, ha]

theorem lookupSubs_runTrace_miss_err (env : Env) (m : VideoMetadata)
    (hm : env.fetchMeta = Except.ok (some m))
    (hmiss : firstLookupHit env.lookup (extractPotentialLevelIds (combinedText m)) = none)
    (hai : env.ai = Except.error ()) :
    lookupSubmissions (runTrace env) = extractPotentialLevelIds (combinedText m) := by
  have ha : eoOpt env.ai = none := by rw [hai]; rfl
  rw [lookupSubs_runTrace_miss env m hm hmiss, ha]
  simp

/-- C6: in the semantic stage the extracted identifier is submitted only when
the extraction returned an identifier, confidence is not low, and the
identifier was not tried in the pattern stage (the trace equation makes the
submission exactly the `semCond` gate); a validation hit terminates the run
with the ai-stage success carrying the extraction's confidence and rationale;
and a semantic-stage error is absorbed: the run still returns, with no
semantic submission. -/
theorem claim_C6 (env : Env) (m : VideoMetadata) (a : AiResult)
    (hm : env.fetchMeta = Except.ok (some m))
    (hmiss : firstLookupHit env.lookup (extractPotentialLevelIds (combinedText m)) = none) :
    (env.ai = Except.ok a →
      lookupSubmissions (runTrace env) =
        extractPotentialLevelIds (combinedText m) ++
          (match semCond a (extractPotentialLevelIds (combinedText m)) with
           | some lid => [lid]
           | none => [])) ∧
    (env.ai = Except.ok a →
      ∀ lid, lookupSubmissions (runTrace env) =
          extractPotentialLevelIds (combinedText m) ++ [lid] →
        a.levelId = some lid ∧ a.confidence ≠ Confidence.low ∧
          lid ∉ extractPotentialLevelIds (combinedText m)) ∧
    (∀ lid info, env.ai = Except.ok a → a.levelId = some lid → lid ≠ "" →
      a.confidence ≠ Confidence.low →
      lid ∉ extractPotentialLevelIds (combinedText m) →
      env.lookup lid = Except.ok (some info) →
      (extractAndValidateLevelId env []).2 = Except.ok (aiSuccessResult lid info a m)) ∧
    (env.ai = Except.error () →
      (extractAndValidateLevelId env []).2 =
        Except.ok (failureResult ErrorKind.NO_LEVEL_ID_FOUND (some m)) ∧
      lookupSubmissions (runTrace env) = extractPotentialLevelIds (combinedText m)) := by
  have hfm : eoOpt env.fetchMeta = some (some m) := by rw [hm]; rfl
  have h1 : stage1ResOf env m (extractPotentialLevelIds (combinedText m)) = none := by
    rw [stage1ResOf, hmiss]
    rfl
  refine ⟨?_, ?_, ?_, ?_⟩
  · intro hai
    exact lookupSubs_runTrace_miss_ok env m a hm hmiss hai
  · intro hai lid heq
    rw [lookupSubs_runTrace_miss_ok env m a hm hmiss hai] at heq
    have heq2 := List.append_cancel_left heq
    rcases hsc : semCond a (extractPotentialLevelIds (combinedText m)) with _ | l
    · rw [hsc] at heq2
      exact absurd heq2 (by simp)
    · rw [hsc] at heq2
      obtain rfl : l = lid := by simpa using heq2
      obtain ⟨hl, _, hc, hnot⟩ := semCond_eq_some a _ l hsc
      exact ⟨hl, hc, hnot⟩
  · intro lid info hai hl hne hc hnot hlk
    have ha : eoOpt env.ai = some a := by rw [hai]; rfl
    have hsem := semCond_intro a (extractPotentialLevelIds (combinedText m)) lid hl hne hc hnot
    have h2 : stage2ResOf env m (extractPotentialLevelIds (combinedText m)) a =
        some (aiSuccessResult lid info a m) := by
      simp only [stage2ResOf, hsem]
      rw [hlk]
    rw [run_eq]
    show Except.ok (runResult env) = _
    simp only [runResult, hfm, h1, ha, h2]
  · intro hai
    have ha : eoOpt env.ai = none := by rw [hai]; rfl
    constructor
    · rw [run_eq]
      show Except.ok (runResult env) = _
      simp only [runResult, hfm, h1, ha]
    · exact lookupSubs_runTrace_miss_err env m hm hmiss hai

theorem claim_C6_witness :
    (extractAndValidateLevelId
      { fetchMeta := Except.ok (some
          { title := "x", description := "", channelTitle := "c", tags := [] }),
        lookup := fun _ => Except.ok (some { id := "123456", name := "L" }),
        ai := Except.ok
          { levelId := some "123456", levelNames := [], confidence := Confidence.high,
            reasoning := "r" },
        search := fun _ => Except.ok none } []).2 =
      Except.ok (aiSuccessResult "123456" { id := "123456", name := "L" }
        { levelId := some "123456", levelNames := [], confidence := Confidence.high,
          reasoning := "r" }
        { title := "x", description := "", channelTitle := "c", tags := [] }) := by
  exact (claim_C6 _ _ _ rfl (by decide)).2.2.1 "123456" _ rfl rfl (by decide) (by decide)
    (by decide) rfl

theorem stage2ResOf_none_of_miss (env : Env) (m : VideoMetadata) (a : AiResult)
    (rids : List String)
    (hs2 : ∀ lid, semCond a rids = some lid →
      env.lookup lid = Except.ok none ∨ env.lookup lid = Except.error ()) :
    stage2ResOf env m rids a = none := by
  rw [stage2ResOf]
  rcases hsc : semCond a rids with _ | lid
  · rfl
  · rcases hs2 lid hsc with h | h <;> simp [h]

theorem searchSubs_runTrace_ctx (env : Env) (m : VideoMetadata) (a : AiResult)
    (hm : env.fetchMeta = Except.ok (some m))
    (hmiss : firstLookupHit env.lookup (extractPotentialLevelIds (combinedText m)) = none)
    (hai : env.ai = Except.ok a)
    (h2 : stage2ResOf env m (extractPotentialLevelIds (combinedText m)) a = none) :
    searchSubmissions (runTrace env) = searchSubmissions (stage3TraceOf env a) := by
  have hfm : eoOpt env.fetchMeta = some (some m) := by rw [hm]; rfl
  have ha : eoOpt env.ai = some a := by rw [hai]; rfl
  have h1 : stage1ResOf env m (extractPotentialLevelIds (combinedText m)) = none := by
    rw [stage1ResOf, hmiss]
    rfl
  simp only [runTrace, hfm, h1, ha, h2]
  rw [searchSubs_fetch, searchSubs_append, searchSubs_map_lookup, List.nil_append,
    searchSubs_aiev, searchSubs_append]
  rcases hsc : semCond a (extractPotentialLevelIds (combinedText m)) with _ | lid
  · rw [show stage2TraceOf a (extractPotentialLevelIds (combinedText m)) = []
      from by rw [stage2TraceOf, hsc]]
    rw [searchSubs_nil, List.nil_append]
  · rw [show stage2TraceOf a (extractPotentialLevelIds (combinedText m))
      = [Call.lookup lid] from by rw [stage2TraceOf, hsc]]
    rw [searchSubs_lookup_cons, searchSubs_nil, List.nil_append]

/-- C7: the name-search stage issues search calls only when the semantic
result has non-empty `levelNames` and confidence not low; it tries the
provided names in order, then, only if none hit, the deduplicated variations
not equal to an already-tried name, in order, first hit winning (the tried
sequence is `triedUntilHit` over `levelNames ++ uniqueVariations levelNames`);
any hit terminates the run with the name-search success carrying
`searchedNames`. -/
theorem claim_C7 (env : Env) (m : VideoMetadata) (a : AiResult)
    (hm : env.fetchMeta = Except.ok (some m))
    (hmiss : firstLookupHit env.lookup (extractPotentialLevelIds (combinedText m)) = none)
    (hai : env.ai = Except.ok a)
    (hs2 : ∀ lid, semCond a (extractPotentialLevelIds (combinedText m)) = some lid →
      env.lookup lid = Except.ok none ∨ env.lookup lid = Except.error ()) :
    (a.levelNames = [] ∨ a.confidence = Confidence.low →
      searchSubmissions (runTrace env) = []) ∧
    (a.levelNames ≠ [] → a.confidence ≠ Confidence.low →
      searchSubmissions (runTrace env) =
        triedUntilHit env.search (a.levelNames ++ uniqueVariations a.levelNames)) ∧
    (a.levelNames ≠ [] → a.confidence ≠ Confidence.low →
      ∀ info, firstSearchHit env.search (a.levelNames ++ uniqueVariations a.levelNames)
          = some info →
        (extractAndValidateLevelId env []).2 = Except.ok (nameSearchResult info a m)) ∧
    (a.levelNames ≠ [] → a.confidence ≠ Confidence.low →
      ∀ info, firstSearchHit env.search a.levelNames = some info →
        searchSubmissions (runTrace env) = triedUntilHit env.search a.levelNames) := by
  have h2 := stage2ResOf_none_of_miss env m a (extractPotentialLevelIds (combinedText m)) hs2
  have hsub := searchSubs_runTrace_ctx env m a hm hmiss hai h2
  have hfm : eoOpt env.fetchMeta = some (some m) := by rw [hm]; rfl
  have ha : eoOpt env.ai = some a := by rw [hai]; rfl
  have h1 : stage1ResOf env m (extractPotentialLevelIds (combinedText m)) = none := by
    rw [stage1ResOf, hmiss]
    rfl
  refine ⟨?_, ?_, ?_, ?_⟩
  · intro hoff
    rw [hsub, stage3TraceOf]
    have hg : ¬(a.levelNames ≠ [] ∧ a.confidence ≠ Confidence.low) := by tauto
    rw [if_neg hg]
    rfl
  · intro hn hc
    rw [hsub, stage3TraceOf, if_pos ⟨hn, hc⟩, searchSubs_map_search, searchOrder]
  · intro hn hc info hfs
    have h3 : stage3ResOf env m a = some (nameSearchResult info a m) := by
      rw [stage3ResOf, if_pos ⟨hn, hc⟩]
      rw [show firstSearchHit env.search (searchOrder a.levelNames) = some info
        from by rw [searchOrder]; exact hfs]
      rfl
    rw [run_eq]
    show Except.ok (runResult env) = _
    simp only [runResult, hfm, h1, ha, h2, h3]
  · intro hn hc info hfs
    rw [hsub, stage3TraceOf, if_pos ⟨hn, hc⟩, searchSubs_map_search, searchOrder,
      triedUntilHit_append, hfs]

theorem claim_C7_witness :
    (extractAndValidateLevelId
      { fetchMeta := Except.ok (some
          { title := "x", description := "", channelTitle := "c", tags := [] }),
        lookup := fun _ => Except.ok none,
        ai := Except.ok
          { levelId := none, levelNames := ["Bloodbath"], confidence := Confidence.high,
            reasoning := "r" },
        search := fun nm =>
          if nm = "Bloodbath" then Except.ok (some { id := "10565740", name := "Bloodbath" })
          else Except.ok none } []).2 =
      Except.ok (nameSearchResult { id := "10565740", name := "Bloodbath" }
        { levelId := none, levelNames := ["Bloodbath"], confidence := Confidence.high,
          reasoning := "r" }
        { title := "x", description := "", channelTitle := "c", tags := [] }) := by
  exact (claim_C7 _ _ _ rfl (by decide) rfl
      (fun lid h => by
        rw [show semCond
            { levelId := none, levelNames := ["Bloodbath"], confidence := Confidence.high,
              reasoning := "r" }
            (extractPotentialLevelIds (combinedText
              { title := "x", description := "", channelTitle := "c", tags := [] })) =
            none from by decide] at h
        exact Option.noConfusion h)).2.2.1
    (by decide) (by decide) _ (by decide)
